import Mathlib

/-! Verification development for the BRC camp recommendation pipeline
(`shape_data.py` → `generate_features.py` / `generate_personality_features.py`
→ `rank_camps.py` / `rank_camps_personality.py`).

Numeric values are modelled over `ℚ` (the Python code works with ints and
floats whose exact values here are small decimal fractions), absent JSON
keys and Python `None` as `Option`, and the IEEE `NaN` produced by
`np.mean([])` as `Option.none`.  `np.argsort` is modelled as a stable
ascending sort with NaN ordered last, matching numpy's documented
behaviour for sorting; text cleaning (`clean_text`) is kept abstract as a
parameter `clean : String → String`, since no claim depends on its
internals.
-/

namespace BRC

/-! Keyword counting (`generate_features.count_keywords`)

`count_keywords` lowercases the text and, for each keyword, counts the
matches of the regex `\b<escaped keyword>\b` via `re.findall`, i.e. the
non-overlapping left-to-right occurrences of the literal keyword flanked
by word boundaries.  `\b` holds at a position iff exactly one of the two
surrounding characters is a word character (`[A-Za-z0-9_]`), positions
outside the string counting as non-word. -/

/-- Python `str.lower()` (ASCII case mapping, as in `Char.toLower`). -/
def lowerStr (s : String) : String :=
  ⟨s.data.map Char.toLower⟩

/-- Python `str.strip()`: drop leading and trailing whitespace. -/
def trimStr (s : String) : String :=
  ⟨((s.data.dropWhile Char.isWhitespace).reverse.dropWhile
      Char.isWhitespace).reverse⟩

def isWordChar (c : Char) : Bool :=
  c.isAlphanum || c == '_'

/-- Whether position `j` of `t` holds a word character (out of range: no). -/
def wordAt (t : List Char) (j : Nat) : Bool :=
  isWordChar (t.getD j ' ')

/-- The regex `\b` word-boundary test at position `j` of `t`. -/
def boundaryAt (t : List Char) : Nat → Bool
  | 0 => wordAt t 0
  | j + 1 => wordAt t j != wordAt t (j + 1)

/-- Whether the pattern `\b k \b` matches `t` at position `i` (as a literal, `re.escape`d pattern). -/
def matchWordAt (t k : List Char) (i : Nat) : Bool :=
  ((t.drop i).take k.length == k) && boundaryAt t i && boundaryAt t (i + k.length)

/-- Fuel-driven left-to-right non-overlapping scan, as `re.findall` performs:
after a match the scan resumes past the matched text.  The fuel
`t.length + 1` always suffices since every step advances the position.
(Keywords in the repository's axis configuration are all nonempty; for an
empty keyword the scan counts nothing.) -/
def countWordAux (t k : List Char) : Nat → Nat → Nat
  | 0, _ => 0
  | fuel + 1, p =>
    if t.length < p + k.length then 0
    else if matchWordAt t k p then
      if k.length = 0 then 0 else 1 + countWordAux t k fuel (p + k.length)
    else countWordAux t k fuel (p + 1)

/-- Number of whole-word occurrences of `kw` in `text` (both already lowered). -/
def countWord (text kw : String) : Nat :=
  countWordAux text.data kw.data (text.data.length + 1) 0

/-- Model of `generate_features.count_keywords`: case-insensitive whole-word count,
summed over the keywords; empty text short-circuits to 0. -/
def count_keywords (text : String) (keywords : List String) : Nat :=
  if text = "" then 0
  else (keywords.map fun kw => countWord (lowerStr text) (lowerStr kw)).sum

/-! Substring counting (`generate_personality_features.compute_keyword_score`)

The personality variant instead uses Python's `str.count`: plain
non-overlapping substring occurrences, with no word-boundary test, and
without lowering the keyword (the configured keywords are already
lowercase). -/

def countSubAux (t k : List Char) : Nat → Nat → Nat
  | 0, _ => 0
  | fuel + 1, p =>
    if t.length < p + k.length then 0
    else if (t.drop p).take k.length == k then
      if k.length = 0 then 0 else 1 + countSubAux t k fuel (p + k.length)
    else countSubAux t k fuel (p + 1)

/-- Python `text.count(kw)` for nonempty `kw`. -/
def countSubstr (text kw : String) : Nat :=
  countSubAux text.data kw.data (text.data.length + 1) 0

/-- Model of `generate_personality_features.compute_keyword_score`. -/
def compute_keyword_score (text : String) (keywords : List String) : Nat :=
  (keywords.map fun kw => countSubstr (lowerStr text) kw).sum

/-! Python substring membership (`a in b`) -/

/-- Whether `a` occurs contiguously in `b` (Python `a in b`); the empty list is a
sublist of everything. -/
def subList (a : List Char) : List Char → Bool
  | [] => a.isEmpty
  | c :: rest => a.isPrefixOf (c :: rest) || subList a rest

/-- Python string containment `a in b`. -/
def pyIn (a b : String) : Bool :=
  subList a.data b.data

/-! Data model of the Feature Store and of user profiles (`rank_camps.py`) -/

/-- One row of `camp_features.json` (the fields the ranker reads). -/
structure CampFeature where
  name : String
  uid : String
  hometown : String
  embedding : List ℚ
  axes : List (String × ℚ)
  event_count : Nat
  years_active : Nat
deriving DecidableEq

instance : Inhabited CampFeature :=
  ⟨{ name := "", uid := "", hometown := "", embedding := [], axes := [],
     event_count := 0, years_active := 0 }⟩

/-- Model of `rank_camps.UserProfile`: optional description, optional hometown, and
axis keyword arguments whose value `None` means "no opinion". -/
structure UserProfile where
  description : Option String
  hometown : Option String
  axes : List (String × Option ℚ)

/-- The entries of `user_profile.axes` whose value is not `None`
(`{k: v for k, v in user_profile.axes.items() if v is not None}`). -/
def userPreferences (p : UserProfile) : List (String × ℚ) :=
  p.axes.filterMap fun kv => kv.2.map fun v => (kv.1, v)

/-! Component scores of `CampRanker` -/

/-- The per-axis match of `CampRanker._compute_axis_match_score`:
meet-or-exceed earns `100` plus the excess capped at `10`, shortfall is
penalised linearly. -/
def per_axis_match (user_pref camp_score : ℚ) : ℚ :=
  if user_pref ≤ camp_score then 100 + min (camp_score - user_pref) 10
  else 100 - (user_pref - camp_score)

/-- The per-camp list of per-axis matches: preferences whose axis key is
absent from the camp's `axes` map are skipped. -/
def axisDistances (p : UserProfile) (c : CampFeature) : List ℚ :=
  (userPreferences p).filterMap fun kv =>
    (List.lookup kv.1 c.axes).map fun s => per_axis_match kv.2 s

/-- Model of `np.mean` over a Python list: the empty list yields IEEE `NaN`,
modelled as `none`. -/
def npMean (l : List ℚ) : Option ℚ :=
  if l = [] then none else some (l.sum / l.length)

/-- Model of `CampRanker._compute_axis_match_score` (one entry per camp, `none` for
the `NaN` that `np.mean([])` produces). -/
def compute_axis_match_score (camps : List CampFeature) (p : UserProfile) :
    List (Option ℚ) :=
  if userPreferences p = [] then camps.map fun _ => some 50
  else camps.map fun c => npMean (axisDistances p c)

def dot (a b : List ℚ) : ℚ :=
  (List.zipWith (· * ·) a b).sum

/-- Model of `CampRanker._compute_embedding_similarity`: neutral `0.5` per camp when
the profile has no description, otherwise the dot product of each camp's
stored embedding with the encoded description.  The sentence-transformer
is external to the repository and is passed in as `encode`. -/
def compute_embedding_similarity (encode : String → List ℚ)
    (camps : List CampFeature) (p : UserProfile) : List ℚ :=
  match p.description with
  | none => List.replicate camps.length (1 / 2)
  | some d => camps.map fun c => dot c.embedding (encode d)

/-- The per-camp body of `CampRanker._compute_geographic_bonus` for a user
hometown `h`: `10` for an exact match of the lowered/stripped strings,
`5` for containment either way, else `0`. -/
def geo_bonus_for (h : String) (c : CampFeature) : ℚ :=
  let u := trimStr (lowerStr h)
  let ch := trimStr (lowerStr c.hometown)
  if ch = u then 10
  else if pyIn u ch || pyIn ch u then 5
  else 0

/-- Model of `CampRanker._compute_geographic_bonus`. -/
def compute_geographic_bonus (camps : List CampFeature) (p : UserProfile) :
    List ℚ :=
  match p.hometown with
  | none => List.replicate camps.length 0
  | some h => camps.map (geo_bonus_for h)

/-! The method `CampRanker.rank` -/

/-- Blended final score per camp (a `none` axis match, i.e. `NaN`,
propagates). -/
def final_scores (encode : String → List ℚ) (camps : List CampFeature)
    (p : UserProfile) (we wa wg : ℚ) : List (Option ℚ) :=
  List.zipWith
    (fun (ea : ℚ × Option ℚ) (g : ℚ) =>
      ea.2.map fun av => we * (ea.1 * 100) + wa * av + wg * g)
    ((compute_embedding_similarity encode camps p).zip
      (compute_axis_match_score camps p))
    (compute_geographic_bonus camps p)

/-- numpy's ascending order on scores, with `NaN` (`none`) sorting last. -/
def optLeB : Option ℚ → Option ℚ → Bool
  | some a, some b => decide (a ≤ b)
  | some _, none => true
  | none, some _ => false
  | none, none => true

/-- Index comparison used by the argsort model. -/
def idxLe (scores : List (Option ℚ)) (i j : Nat) : Prop :=
  optLeB (scores.getD i none) (scores.getD j none) = true

instance (scores : List (Option ℚ)) : DecidableRel (idxLe scores) :=
  fun _ _ => instDecidableEqBool _ _

/-- Model of `np.argsort(scores)[::-1]`: a stable ascending argsort, reversed. -/
def rankIndices (scores : List (Option ℚ)) : List Nat :=
  (List.insertionSort (idxLe scores) (List.range scores.length)).reverse

/-- One entry of the list returned by `CampRanker.rank` (the scored fields;
the human-readable explanation is presentation only and not modelled). -/
structure RankedResult where
  rank : Nat
  name : String
  uid : String
  score : Option ℚ
  embedding_similarity : ℚ
  axis_match : Option ℚ
  geographic_bonus : ℚ
deriving DecidableEq

/-- Model of `CampRanker.rank`: compute the three component score vectors, blend,
argsort descending, truncate to `top_k` and build the result records. -/
def rank (encode : String → List ℚ) (camps : List CampFeature)
    (p : UserProfile) (top_k : Nat) (we wa wg : ℚ) : List RankedResult :=
  ((rankIndices (final_scores encode camps p we wa wg)).take top_k).enum.map
    fun ji =>
      { rank := ji.1 + 1
        name := (camps.getD ji.2 default).name
        uid := (camps.getD ji.2 default).uid
        score := (final_scores encode camps p we wa wg).getD ji.2 none
        embedding_similarity :=
          (compute_embedding_similarity encode camps p).getD ji.2 0 * 100
        axis_match := (compute_axis_match_score camps p).getD ji.2 none
        geographic_bonus := (compute_geographic_bonus camps p).getD ji.2 0 }

/-! The method `PersonalityCampRanker._compute_personality_match`
(`rank_camps_personality.py`): symmetric inverse-distance matching, and an
explicit neutral `50` when none of the user's traits is present on the
camp. -/

structure PersonalityCamp where
  axes : List (String × ℚ)

/-- The traits of a `PersonalityProfile` that are not `None`. -/
def userTraits (traits : List (String × Option ℚ)) : List (String × ℚ) :=
  traits.filterMap fun kv => kv.2.map fun v => (kv.1, v)

/-- The per-camp list of symmetric trait matches `100 − |user − camp|`,
skipping traits absent from the camp. -/
def traitMatches (traits : List (String × Option ℚ)) (c : PersonalityCamp) :
    List ℚ :=
  (userTraits traits).filterMap fun kv =>
    (List.lookup kv.1 c.axes).map fun s => 100 - |kv.2 - s|

def compute_personality_match (camps : List PersonalityCamp)
    (traits : List (String × Option ℚ)) : List ℚ :=
  if userTraits traits = [] then List.replicate camps.length 50
  else
    camps.map fun c =>
      let ms := traitMatches traits c
      if ms = [] then 50 else ms.sum / ms.length

/-! Spec-side views of the axis intersection, used to state that absent
axes are skipped: the preferences (resp. traits) whose key the camp
actually carries. -/

def presentPreferences (p : UserProfile) (c : CampFeature) :
    List (String × ℚ) :=
  (userPreferences p).filter fun kv => (List.lookup kv.1 c.axes).isSome

def presentTraits (traits : List (String × Option ℚ))
    (c : PersonalityCamp) : List (String × ℚ) :=
  (userTraits traits).filter fun kv => (List.lookup kv.1 c.axes).isSome

/-! Axis scoring and percentile normalization (`generate_features.py`) -/

/-- The per-(camp, axis) dictionary built by `compute_axis_score` /
`normalize_axis_scores`.  The Python dict does not always carry a
`normalized_score` key, hence the `Option`: `none` models the absent key. -/
structure AxisRaw where
  raw_count : Nat
  density : ℚ
  normalized_score : Option ℚ
deriving DecidableEq

/-- Model of `generate_features.compute_axis_score`: an empty corpus short-circuits
to zeros (with `normalized_score` present and `0`); otherwise only
`raw_count` and `density` are set — `normalized_score` is left for the
second pass. -/
def compute_axis_score (text_corpus : String) (keywords : List String) :
    AxisRaw :=
  if text_corpus.length = 0 then ⟨0, 0, some 0⟩
  else
    let raw := count_keywords text_corpus keywords
    ⟨raw, (raw : ℚ) / (text_corpus.length : ℚ) * 1000, none⟩

/-- Model of `np.percentile(l, q)` with the default linear interpolation, computed
exactly over `ℚ`: index `(n−1)·q/100` into the ascending sort, linearly
interpolating between the two neighbouring order statistics. -/
def percentile (l : List ℚ) (q : ℚ) : ℚ :=
  let s := List.insertionSort (· ≤ ·) l
  match s with
  | [] => 0
  | _ :: _ =>
    let n := s.length
    let h := ((n : ℚ) - 1) * q / 100
    let i := (Int.floor h).toNat
    let g := h - Int.floor h
    let lo := s.getD i 0
    let hi := s.getD (min (i + 1) (n - 1)) 0
    lo + g * (hi - lo)

/-- Python `round(x, 1)` (round half to even), exactly over `ℚ`. -/
def round1 (x : ℚ) : ℚ :=
  let y := 10 * x
  let n := Int.floor y
  let f := y - n
  ((if f < 1 / 2 then n
    else if 1 / 2 < f then n + 1
    else if n % 2 = 0 then n else n + 1 : ℤ) : ℚ) / 10

/-- The piecewise-linear mapping applied to one density by the
normalization loop of `normalize_axis_scores`. -/
def normalize_one (density p50 p95 : ℚ) : ℚ :=
  if density = 0 then 0
  else if p95 ≤ density then 100
  else if p50 ≤ density then 50 + (density - p50) / (p95 - p50) * 50
  else density / p50 * 50

/-- Model of `generate_features.normalize_axis_scores` for one axis: densities of
camps with positive density feed the percentiles; if there are none the
input is returned unchanged (so `normalized_score` keys that were never
written stay absent); otherwise every camp's `normalized_score` is set to
the rounded piecewise-linear value. -/
def normalize_axis_scores (all_scores : List AxisRaw) : List AxisRaw :=
  let densities := (all_scores.filter fun s => 0 < s.density).map (·.density)
  if densities = [] then all_scores
  else
    let p50 := percentile densities 50
    let p95 := percentile densities 95
    all_scores.map fun s =>
      { s with normalized_score := some (round1 (normalize_one s.density p50 p95)) }

/-! The Shaper (`shape_data.py`)

`clean_text` (whitespace collapsing and boilerplate stripping) is kept
abstract as a parameter `clean`; every property below holds for an
arbitrary cleaning function. -/

/-- One event of a per-year history record (`title`/`description` default
to the empty string when absent, as `event.get(..., '')` does). -/
structure EventInfo where
  title : String
  description : String
deriving DecidableEq

/-- One `(camp, year)` history record. -/
structure HistoryRecord where
  year : Int
  description : String
  events : List EventInfo
deriving DecidableEq

/-- A roster entry (the fields the shaper reads). -/
structure CampInput where
  name : String
  hometown : Option String
deriving DecidableEq

/-- The fields of a shaped record that the downstream pipeline reads. -/
structure ShapedRecord where
  name : String
  hometown : String
  text_corpus : String
  latest_description : String
  all_descriptions : String
  event_text : String
  event_count : Nat
  has_description : Bool
  has_events : Bool
deriving DecidableEq

/-- Python `sorted(records, key=lambda x: x['year'], reverse=True)`:
a stable sort, descending by year. -/
def sortByYearDesc (recs : List HistoryRecord) : List HistoryRecord :=
  List.insertionSort (fun a b => b.year ≤ a.year) recs

/-- Python `' '.join`. -/
def joinSp : List String → String
  | [] => ""
  | [x] => x
  | x :: y :: rest => x ++ " " ++ joinSp (y :: rest)

section Shaper

variable (clean : String → String)

/-- From `consolidate_descriptions`: cleaned description of the most recent
record (empty when there is no history). -/
def latest_description (recs : List HistoryRecord) : String :=
  match sortByYearDesc recs with
  | [] => ""
  | r :: _ => clean r.description

/-- The `[<year>] ` marker prefixed to each per-year description. -/
def yearTag (r : HistoryRecord) : String :=
  "[" ++ toString r.year ++ "] "

/-- From `consolidate_descriptions`: all nonempty cleaned descriptions, each
with its year marker, space-joined in descending-year order. -/
def all_descriptions (recs : List HistoryRecord) : String :=
  joinSp ((sortByYearDesc recs).filterMap fun r =>
    let d := clean r.description
    if d = "" then none else some (yearTag r ++ d))

/-- The combined text of one event: `f"{title}. {description}"` when the
cleaned description is nonempty, else just the cleaned title. -/
def event_item (e : EventInfo) : String :=
  let t := clean e.title
  let d := clean e.description
  if d = "" then t else t ++ ". " ++ d

/-- From `consolidate_events`: the nonempty combined event texts, flattened
across the year records in descending-year order. -/
def event_items (recs : List HistoryRecord) : List String :=
  ((sortByYearDesc recs).map fun r =>
    r.events.filterMap fun e =>
      let s := event_item clean e
      if s = "" then none else some s).flatten

def event_text (recs : List HistoryRecord) : String :=
  joinSp (event_items clean recs)

def event_count (recs : List HistoryRecord) : Nat :=
  (event_items clean recs).length

/-- The corpus part list of `create_shaped_record`: the latest description
twice (when nonempty), then the all-years descriptions, then the event
text — each appended only when nonempty. -/
def text_corpus_parts (recs : List HistoryRecord) : List String :=
  (if latest_description clean recs = "" then []
   else [latest_description clean recs, latest_description clean recs]) ++
  (if all_descriptions clean recs = "" then []
   else [all_descriptions clean recs]) ++
  (if event_text clean recs = "" then [] else [event_text clean recs])

/-- Model of `shape_data.create_shaped_record` (the modelled fields). -/
def create_shaped_record (camp : CampInput) (recs : List HistoryRecord) :
    ShapedRecord :=
  { name := camp.name
    hometown := trimStr (lowerStr (camp.hometown.getD ""))
    text_corpus := joinSp (text_corpus_parts clean recs)
    latest_description := latest_description clean recs
    all_descriptions := all_descriptions clean recs
    event_text := event_text clean recs
    event_count := event_count clean recs
    has_description := decide (0 < (latest_description clean recs).length)
    has_events := decide (0 < event_count clean recs) }

/-- Model of `shape_data.shape_all_camps`; the history file is modelled as the
lookup function `history` (Python `history_data.get(name, {}).get('history', [])`). -/
def shape_all_camps (camps : List CampInput)
    (history : String → List HistoryRecord) : List ShapedRecord :=
  camps.map fun c => create_shaped_record clean c (history c.name)

end Shaper

/-! Concrete data for the tie-order counterexample: two camps with equal
final scores, loaded in the order Alpha, Beta. -/

def campAlpha : CampFeature :=
  { name := "Alpha", uid := "a", hometown := "", embedding := [1],
    axes := [("x", 50)], event_count := 0, years_active := 0 }

def campBeta : CampFeature :=
  { name := "Beta", uid := "b", hometown := "", embedding := [1],
    axes := [("x", 50)], event_count := 0, years_active := 0 }

def profTie : UserProfile := ⟨none, none, [("x", some 50)]⟩

/-! Auxiliary lemmas -/

theorem subList_nil_left (l : List Char) : subList [] l = true := by
  cases l <;> simp [subList, List.isPrefixOf]

/-- The branch conditions of `normalize_one` alone keep every computed
value inside `[0, 100]` (the divisors are positive exactly when they are
reached). -/
theorem normalize_one_mem (d p50 p95 : ℚ) (hd : 0 ≤ d) :
    0 ≤ normalize_one d p50 p95 ∧ normalize_one d p50 p95 ≤ 100 := by
  unfold normalize_one
  split_ifs with h0 h95 h50
  · norm_num
  · norm_num
  · have hlt : p50 < p95 := lt_of_le_of_lt h50 (not_le.mp h95)
    have hr0 : 0 ≤ (d - p50) / (p95 - p50) :=
      div_nonneg (by linarith) (by linarith)
    have hr1 : (d - p50) / (p95 - p50) < 1 := by
      rw [div_lt_one (by linarith)]
      linarith [not_le.mp h95]
    constructor <;> nlinarith
  · have hdpos : 0 < d := lt_of_le_of_ne hd (Ne.symm h0)
    have hp50 : 0 < p50 := lt_trans hdpos (not_le.mp h50)
    have hr0 : 0 ≤ d / p50 := div_nonneg hd (le_of_lt hp50)
    have hr1 : d / p50 < 1 := by
      rw [div_lt_one hp50]
      exact not_le.mp h50
    constructor <;> nlinarith

/-! Claim theorems -/

/-- Claim C2: per-axis match formula: if the camp meets or exceeds the
user's preference the match is `100` plus the excess capped at `10` (so
it never exceeds `110`, and equals exactly `110` at `user_pref = 50`,
`camp_score = 100`); otherwise it is `100` minus the shortfall; and for a
fixed preference the match is monotone non-decreasing in the camp
score. -/
theorem c2_per_axis_match_formula (user_pref camp_score : ℚ) :
    (user_pref ≤ camp_score →
      per_axis_match user_pref camp_score =
        100 + min (camp_score - user_pref) 10) ∧
    (camp_score < user_pref →
      per_axis_match user_pref camp_score = 100 - (user_pref - camp_score)) ∧
    per_axis_match user_pref camp_score ≤ 110 ∧
    per_axis_match 50 100 = 110 ∧
    (∀ c1 c2 : ℚ, c1 ≤ c2 →
      per_axis_match user_pref c1 ≤ per_axis_match user_pref c2) := by
  refine ⟨fun h => by rw [per_axis_match, if_pos h],
    fun h => by rw [per_axis_match, if_neg (not_le.mpr h)], ?_, ?_, ?_⟩
  · unfold per_axis_match
    split_ifs with h
    · have := min_le_right (camp_score - user_pref) (10 : ℚ)
      linarith
    · have := not_le.mp h
      linarith
  · norm_num [per_axis_match, min_def]
  · intro c1 c2 hc
    unfold per_axis_match
    split_ifs with h1 h2 h2
    · have : min (c1 - user_pref) 10 ≤ min (c2 - user_pref) 10 :=
        min_le_min (by linarith) le_rfl
      linarith
    · exact absurd (le_trans h1 hc) h2
    · have : (0 : ℚ) ≤ min (c2 - user_pref) 10 :=
        le_min (by linarith) (by norm_num)
      have := not_le.mp h1
      linarith
    · linarith

/-- Witness for C2 at `user_pref = 50`, `camp_score = 100` and at the
monotonicity instance `camp_score 30 ≤ camp_score 40` under
`user_pref = 80`. -/
theorem c2_per_axis_match_formula_witness :
    per_axis_match 50 100 = 100 + min (100 - 50 : ℚ) 10 ∧
    per_axis_match 80 30 ≤ per_axis_match 80 40 :=
  ⟨(c2_per_axis_match_formula 50 100).1 (by norm_num),
   (c2_per_axis_match_formula 80 0).2.2.2.2 30 40 (by norm_num)⟩

/-- Claim C9: geographic bonus rules: absent hometown gives `0` to every
camp; otherwise each camp gets `10` for an equal lowered/trimmed
hometown, `5` for substring containment either way, `0` otherwise — with
the spec's concrete instances `"Oakland"` vs `"oakland"` / `"Oakland, CA"`
/ `"Berkeley"`. -/
theorem c9_geographic_bonus_rules (camps : List CampFeature)
    (p : UserProfile) :
    (p.hometown = none →
      compute_geographic_bonus camps p = List.replicate camps.length 0) ∧
    (∀ h : String, p.hometown = some h →
      compute_geographic_bonus camps p = camps.map (geo_bonus_for h)) ∧
    geo_bonus_for "Oakland" { (default : CampFeature) with hometown := "oakland" } = 10 ∧
    geo_bonus_for "Oakland" { (default : CampFeature) with hometown := "Oakland, CA" } = 5 ∧
    geo_bonus_for "Oakland" { (default : CampFeature) with hometown := "Berkeley" } = 0 := by
  refine ⟨fun h => ?_, fun s hs => ?_, by decide, by decide, by decide⟩
  · simp [compute_geographic_bonus, h]
  · simp [compute_geographic_bonus, hs]

/-- Witness for C9: a profile with no hometown over a one-camp population,
and a profile from Oakland. -/
theorem c9_geographic_bonus_rules_witness :
    compute_geographic_bonus [default] ⟨none, none, []⟩ = List.replicate 1 0 ∧
    compute_geographic_bonus [default] ⟨none, some "Oakland", []⟩ =
      [default].map (geo_bonus_for "Oakland") :=
  ⟨(c9_geographic_bonus_rules [default] ⟨none, none, []⟩).1 rfl,
   (c9_geographic_bonus_rules [default] ⟨none, some "Oakland", []⟩).2.1
      "Oakland" rfl⟩

/-- Claim C10: a camp whose stored hometown trims to the empty string gets
geographic bonus `5` from every profile whose own trimmed hometown is
nonempty (hence differs from the camp's): the empty string is a substring
of every string, and the exact-match branch cannot fire. -/
theorem c10_empty_camp_hometown_bonus (hu : String) (c : CampFeature)
    (camps : List CampFeature) (p : UserProfile)
    (hc : trimStr (lowerStr c.hometown) = "")
    (hne : trimStr (lowerStr hu) ≠ "") :
    geo_bonus_for hu c = 5 ∧
    (p.hometown = some hu →
      compute_geographic_bonus camps p = camps.map (geo_bonus_for hu)) := by
  refine ⟨?_, fun hp => by simp [compute_geographic_bonus, hp]⟩
  simp only [geo_bonus_for, hc]
  rw [if_neg (fun h => hne h.symm)]
  have hsub : subList [] (trimStr (lowerStr hu)).data = true := subList_nil_left _
  simp [pyIn, hsub]

/-- Witness for C10: user hometown `"Oakland"`, camp hometown `"   "`. -/
theorem c10_empty_camp_hometown_bonus_witness :
    geo_bonus_for "Oakland" { (default : CampFeature) with hometown := "   " } = 5 :=
  (c10_empty_camp_hometown_bonus "Oakland"
    { (default : CampFeature) with hometown := "   " } [] ⟨none, none, []⟩
    (by decide) (by decide)).1

/-- Claim C1: no-opinion neutrality: with no description every camp's
embedding-similarity component (`0.5`, reported `× 100`) is the neutral
`50`; with every axis value `None` the axis-match component is `50` for
every camp; and a preference of `0` survives the `is not None` filter, so
it counts as an expressed opinion. -/
theorem c1_no_opinion_neutrality (encode : String → List ℚ)
    (camps : List CampFeature) (p : UserProfile) :
    (p.description = none →
      (compute_embedding_similarity encode camps p).map (· * 100) =
        List.replicate camps.length 50) ∧
    ((∀ kv ∈ p.axes, kv.2 = none) →
      compute_axis_match_score camps p =
        List.replicate camps.length (some 50)) ∧
    (∀ k : String, (k, some (0 : ℚ)) ∈ p.axes → userPreferences p ≠ []) := by
  refine ⟨fun h => ?_, fun h => ?_, fun k hk hemp => ?_⟩
  · rw [compute_embedding_similarity, h]
    rw [List.map_replicate]
    norm_num
  · have hpref : userPreferences p = [] := by
      rw [userPreferences, List.filterMap_eq_nil_iff]
      intro kv hkv
      rw [h kv hkv]
      rfl
    rw [compute_axis_match_score, if_pos hpref, List.map_eq_replicate_iff]
    simp
  · have : (k, (0 : ℚ)) ∈ userPreferences p :=
      List.mem_filterMap.mpr ⟨(k, some 0), hk, rfl⟩
    rw [hemp] at this
    exact absurd this (List.not_mem_nil _)

/-- Witness for C1: a profile with no description and one `None` axis
(conjuncts 1–2), and a profile carrying an explicit `0` preference
(conjunct 3). -/
theorem c1_no_opinion_neutrality_witness :
    (compute_embedding_similarity (fun _ => []) [default]
        ⟨none, none, [("woo_woo", none)]⟩).map (· * 100) =
      List.replicate 1 50 ∧
    compute_axis_match_score [default] ⟨none, none, [("woo_woo", none)]⟩ =
      List.replicate 1 (some 50) ∧
    userPreferences ⟨none, none, [("woo_woo", some 0)]⟩ ≠ [] :=
  ⟨(c1_no_opinion_neutrality (fun _ => []) [default]
      ⟨none, none, [("woo_woo", none)]⟩).1 rfl,
   (c1_no_opinion_neutrality (fun _ => []) [default]
      ⟨none, none, [("woo_woo", none)]⟩).2.1 (by simp),
   (c1_no_opinion_neutrality (fun _ => []) [default]
      ⟨none, none, [("woo_woo", some 0)]⟩).2.2 "woo_woo" (by simp)⟩

/-- A `filterMap` through an association-list lookup is the map over the
entries whose key is present. -/
theorem filterMap_lookup_eq {γ : Type} (l axes : List (String × ℚ))
    (g : String × ℚ → ℚ → γ) :
    (l.filterMap fun kv => (List.lookup kv.1 axes).map (g kv)) =
      ((l.filter fun kv => (List.lookup kv.1 axes).isSome).map
        fun kv => g kv ((List.lookup kv.1 axes).getD 0)) := by
  induction l with
  | nil => rfl
  | cons kv t ih =>
    cases hkv : List.lookup kv.1 axes <;>
      simp [List.filterMap_cons, List.filter_cons, hkv, ih]

/-- Claim C5, amended: preferences on axes the camp lacks are skipped: the
per-axis match list ranges over exactly the axes present in both profile
and camp, and the camp's axis match is the arithmetic mean over that
intersection when it is nonempty.  When the intersection is empty,
`CampRanker` takes `np.mean([])`, which is `NaN` (`none`) — not a
well-defined number — while `PersonalityCampRanker` substitutes the
neutral `50`. -/
theorem c5_shared_axis_mean (camps : List CampFeature) (p : UserProfile)
    (pcamps : List PersonalityCamp) (traits : List (String × Option ℚ)) :
    (∀ c : CampFeature, axisDistances p c =
      (presentPreferences p c).map
        fun kv => per_axis_match kv.2 ((List.lookup kv.1 c.axes).getD 0)) ∧
    (userPreferences p ≠ [] →
      compute_axis_match_score camps p = camps.map fun c =>
        if presentPreferences p c = [] then none
        else some ((axisDistances p c).sum / (axisDistances p c).length)) ∧
    (userTraits traits ≠ [] →
      compute_personality_match pcamps traits = pcamps.map fun c =>
        if presentTraits traits c = [] then 50
        else (traitMatches traits c).sum / (traitMatches traits c).length) := by
  have key : ∀ c : CampFeature, axisDistances p c =
      (presentPreferences p c).map
        fun kv => per_axis_match kv.2 ((List.lookup kv.1 c.axes).getD 0) :=
    fun c => filterMap_lookup_eq (userPreferences p) c.axes
      fun kv s => per_axis_match kv.2 s
  refine ⟨key, fun h => ?_, fun h => ?_⟩
  · rw [compute_axis_match_score, if_neg h]
    refine List.map_congr_left fun c _ => ?_
    rw [npMean]
    by_cases hpc : presentPreferences p c = []
    · rw [if_pos hpc, if_pos]
      rw [key c, hpc]
      rfl
    · rw [if_neg hpc, if_neg]
      rw [key c]
      simp [hpc]
  · rw [compute_personality_match, if_neg h]
    refine List.map_congr_left fun c _ => ?_
    have keyt : traitMatches traits c =
        (presentTraits traits c).map
          fun kv => 100 - |kv.2 - (List.lookup kv.1 c.axes).getD 0| :=
      filterMap_lookup_eq (userTraits traits) c.axes fun kv s => 100 - |kv.2 - s|
    by_cases hpc : presentTraits traits c = []
    · rw [if_pos hpc]
      rw [show traitMatches traits c = [] by rw [keyt, hpc]; rfl]
      simp
    · rw [if_neg hpc]
      have hne2 : traitMatches traits c ≠ [] := by
        rw [keyt]
        simp [hpc]
      simp [hne2]

/-- Witness for C5: a single-axis profile against a camp carrying the
axis, and a personality profile against a camp carrying no trait. -/
theorem c5_shared_axis_mean_witness :
    (compute_axis_match_score
        [{ (default : CampFeature) with axes := [("workshops", 80)] }]
        ⟨none, none, [("workshops", some 60)]⟩ =
      [{ (default : CampFeature) with axes := [("workshops", 80)] }].map
        fun c =>
          if presentPreferences ⟨none, none, [("workshops", some 60)]⟩ c = []
          then none
          else some
            ((axisDistances ⟨none, none, [("workshops", some 60)]⟩ c).sum /
              (axisDistances ⟨none, none, [("workshops", some 60)]⟩ c).length)) ∧
    (compute_personality_match [⟨[]⟩] [("night_owl", some 70)] =
      [(⟨[]⟩ : PersonalityCamp)].map fun c =>
        if presentTraits [("night_owl", some 70)] c = [] then 50
        else (traitMatches [("night_owl", some 70)] c).sum /
          (traitMatches [("night_owl", some 70)] c).length) :=
  ⟨(c5_shared_axis_mean _ ⟨none, none, [("workshops", some 60)]⟩ [] []).2.1
      (by decide),
   (c5_shared_axis_mean [] ⟨none, none, []⟩ [⟨[]⟩]
      [("night_owl", some 70)]).2.2 (by decide)⟩

/-- Counterexample for claim C5: the claim asserts the axis match is a
well-defined number even when no preferred axis is present on the camp;
but for a profile preferring `music_jazz_blues` against a camp with an
empty axes map, `CampRanker._compute_axis_match_score` produces
`np.mean([])`, i.e. `NaN` (`none`). -/
theorem c5_empty_intersection_counterexample :
    compute_axis_match_score [{ (default : CampFeature) with name := "Solo" }]
      ⟨none, none, [("music_jazz_blues", some 90)]⟩ = [none] := by
  decide

/-- Counting over the empty text is `0` keyword by keyword. -/
theorem countWord_empty_text (kw : String) : countWord "" kw = 0 := by
  rw [countWord]
  cases hk : kw.data with
  | nil => decide
  | cons c cs =>
    show countWordAux [] (c :: cs) 1 0 = 0
    simp only [countWordAux]
    rw [if_pos]
    simp

/-- Claim C7, amended: in `generate_features`, `raw_count` is the sum over
the axis's keywords of the whole-word, case-insensitive, non-overlapping
occurrence counts in the corpus, and a keyword occurring only inside a
longer word is not counted there; but the personality variant
(`compute_keyword_score`) counts plain substring occurrences, so there a
keyword inside a longer word is counted. -/
theorem c7_whole_word_counting (text : String) (keywords : List String) :
    (compute_axis_score text keywords).raw_count =
      (keywords.map fun kw => countWord (lowerStr text) (lowerStr kw)).sum ∧
    countWord "scamps and camps" "camp" = 0 ∧
    countWord "the camp, a camp!" "camp" = 2 ∧
    count_keywords "A Camp of jazz" ["jazz", "camp"] = 2 ∧
    compute_keyword_score "encampment" ["camp"] = 1 := by
  refine ⟨?_, by decide, by decide, by decide, by decide⟩
  by_cases h : text = ""
  · subst h
    rw [show compute_axis_score "" keywords = ⟨0, 0, some 0⟩ from rfl]
    have : ∀ x ∈ keywords.map fun kw => countWord (lowerStr "") (lowerStr kw),
        x = 0 := by
      intro x hx
      rcases List.mem_map.mp hx with ⟨kw, _, hkw⟩
      rw [← hkw]
      exact countWord_empty_text _
    rw [List.sum_eq_zero this]
  · have hlen : text.length ≠ 0 := fun h0 => h (by
      cases text with
      | mk l => cases l with
        | nil => rfl
        | cons c cs => simp [String.length] at h0)
    rw [compute_axis_score, if_neg hlen, count_keywords, if_neg h]

/-- Counterexample for claim C7: against the claim that every axis-scoring
variant counts only whole words: on text `"camp"` with keyword `"am"`,
the personality variant counts `1` while the whole-word count is `0`. -/
theorem c7_substring_counterexample :
    compute_keyword_score "camp" ["am"] = 1 ∧
    (["am"].map fun kw => countWord (lowerStr "camp") (lowerStr kw)).sum
      = 0 := by
  decide

/-! Order properties of the argsort comparison. -/

theorem optLeB_total (a b : Option ℚ) :
    optLeB a b = true ∨ optLeB b a = true := by
  cases a with
  | none => cases b with
    | none => exact Or.inl rfl
    | some y => exact Or.inr rfl
  | some x => cases b with
    | none => exact Or.inl rfl
    | some y =>
      simp only [optLeB, decide_eq_true_eq]
      exact le_total x y

theorem optLeB_trans {a b c : Option ℚ} (h1 : optLeB a b = true)
    (h2 : optLeB b c = true) : optLeB a c = true := by
  cases a <;> cases b <;> cases c <;> simp [optLeB] at h1 h2 ⊢
  exact le_trans h1 h2

instance (s : List (Option ℚ)) : IsTotal Nat (idxLe s) :=
  ⟨fun _ _ => optLeB_total _ _⟩

instance (s : List (Option ℚ)) : IsTrans Nat (idxLe s) :=
  ⟨fun _ _ _ => optLeB_trans⟩

theorem snd_mem_of_mem_enumFrom {α : Type} :
    ∀ (l : List α) (n : Nat) (y : Nat × α), y ∈ l.enumFrom n → y.2 ∈ l
  | [], _, _, h => absurd h (List.not_mem_nil _)
  | x :: xs, n, y, h => by
    rcases List.mem_cons.mp h with h1 | h2
    · rw [h1]
      exact List.mem_cons_self _ _
    · exact List.mem_cons_of_mem _ (snd_mem_of_mem_enumFrom xs (n + 1) y h2)

theorem pairwise_enumFrom {α : Type} {R : α → α → Prop} :
    ∀ (l : List α) (n : Nat), l.Pairwise R →
      (l.enumFrom n).Pairwise fun a b => R a.2 b.2
  | [], _, _ => List.Pairwise.nil
  | x :: xs, n, h => by
    refine List.Pairwise.cons (fun y hy => ?_)
      (pairwise_enumFrom xs (n + 1) h.of_cons)
    exact (List.pairwise_cons.mp h).1 y.2
      (snd_mem_of_mem_enumFrom xs (n + 1) y hy)

/-- Claim C4, amended: the list returned by `rank` is sorted descending by
final score (whenever two entries both carry a defined score, the later
one is not larger).  Ties are emitted in the order produced by reversing a
stable ascending argsort — i.e. reverse feature-set order — names are
never consulted. -/
theorem c4_rank_sorted_descending (encode : String → List ℚ)
    (camps : List CampFeature) (p : UserProfile) (top_k : Nat)
    (we wa wg : ℚ) :
    (rank encode camps p top_k we wa wg).Pairwise fun a b =>
      ∀ x y : ℚ, a.score = some x → b.score = some y → y ≤ x := by
  rw [rank]
  set fs := final_scores encode camps p we wa wg with hfs
  have h1 : (List.insertionSort (idxLe fs) (List.range fs.length)).Pairwise
      (idxLe fs) := List.sorted_insertionSort _ _
  have h2 : (rankIndices fs).Pairwise fun i j => idxLe fs j i := by
    rw [rankIndices]
    exact List.pairwise_reverse.mpr h1
  have h3 : ((rankIndices fs).take top_k).Pairwise fun i j => idxLe fs j i :=
    h2.sublist (List.take_sublist _ _)
  have h4 : (((rankIndices fs).take top_k).enum).Pairwise
      fun a b => idxLe fs b.2 a.2 := pairwise_enumFrom _ 0 h3
  refine List.Pairwise.map _ (fun a b hab x y hx hy => ?_) h4
  have hx2 : fs.getD a.2 none = some x := hx
  have hy2 : fs.getD b.2 none = some y := hy
  rw [idxLe, hx2, hy2] at hab
  exact of_decide_eq_true hab

/-- Witness for C4: the sortedness theorem applied at a concrete
two-camp feature set.  -/
theorem c4_rank_sorted_descending_witness :
    (rank (fun _ => []) [campAlpha, campBeta] profTie 50 (3 / 10) (7 / 10)
        (1 / 10)).Pairwise fun a b =>
      ∀ x y : ℚ, a.score = some x → b.score = some y → y ≤ x :=
  c4_rank_sorted_descending (fun _ => []) [campAlpha, campBeta] profTie 50
    (3 / 10) (7 / 10) (1 / 10)

/-- Counterexample for claim C4: with the feature set `[Alpha, Beta]` (both
scoring `0.3·50 + 0.7·100 = 85`) the output order is `[Beta, Alpha]`: the
two equal-score camps appear in *descending* name order, refuting the
claimed ascending-name tie-break. -/
theorem c4_tie_order_counterexample :
    ((rank (fun _ => []) [campAlpha, campBeta] profTie 50 (3 / 10) (7 / 10)
        (1 / 10)).map fun r => r.name) = ["Beta", "Alpha"] ∧
    ((rank (fun _ => []) [campAlpha, campBeta] profTie 50 (3 / 10) (7 / 10)
        (1 / 10)).map fun r => r.score) = [some 85, some 85] ∧
    ("Alpha" : String).data < ("Beta" : String).data := by
  refine ⟨?_, ?_, by decide⟩ <;>
    norm_num [rank, final_scores, compute_axis_match_score,
      compute_embedding_similarity, compute_geographic_bonus, rankIndices,
      idxLe, optLeB, npMean, axisDistances, userPreferences, per_axis_match,
      profTie, campAlpha, campBeta, List.lookup, dot, List.filterMap_cons,
      List.zipWith, List.replicate, decide_eq_true_eq, List.enum,
      List.enumFrom, List.getD, List.getElem?_cons_zero,
      List.getElem?_cons_succ]

/-- Claim C3, code bug: in an axis where no camp has non-zero density, the
normalization pass returns early and never writes `normalized_score` for
camps with a non-empty corpus, so an undefined score is produced exactly
where the claim promises a defined one in `[0, 100]` (downstream
`['normalized_score']` access raises `KeyError`).  Camps with an empty
corpus do keep their pre-set `0`. -/
theorem c3_all_zero_densities_leave_score_unset :
    (normalize_axis_scores
        [compute_axis_score "a quiet tea house" ["jazz"],
         compute_axis_score "" ["jazz"]]).map (·.normalized_score) =
      [none, some 0] := by
  have hcount : count_keywords "a quiet tea house" ["jazz"] = 0 := by decide
  have h1 : compute_axis_score "a quiet tea house" ["jazz"] = ⟨0, 0, none⟩ := by
    rw [compute_axis_score,
      if_neg (by decide : ¬("a quiet tea house" : String).length = 0)]
    simp only [hcount]
    norm_num
  have h2 : compute_axis_score "" ["jazz"] = ⟨0, 0, some 0⟩ := rfl
  rw [h1, h2]
  decide

/-- Claim C6, code bug: zero-signal axis: with one camp whose corpus is
non-empty but matches no keyword of the axis, `normalize_axis_scores`
leaves `normalized_score` absent (`none`) instead of the claimed `0`, so
downstream feature-record construction cannot read it; the empty-corpus
camp, by contrast, keeps the `0` set in the raw pass. -/
theorem c6_zero_signal_axis_score_missing :
    normalize_axis_scores [compute_axis_score "dusty art camp" ["sober"]] =
      [{ raw_count := 0, density := 0, normalized_score := none }] ∧
    normalize_axis_scores [compute_axis_score "" ["sober"]] =
      [{ raw_count := 0, density := 0, normalized_score := some 0 }] := by
  have hcount : count_keywords "dusty art camp" ["sober"] = 0 := by decide
  have h1 : compute_axis_score "dusty art camp" ["sober"] = ⟨0, 0, none⟩ := by
    rw [compute_axis_score,
      if_neg (by decide : ¬("dusty art camp" : String).length = 0)]
    simp only [hcount]
    norm_num
  refine ⟨?_, by decide⟩
  rw [h1]
  decide

/-! Emptiness of space-joined part lists. -/

theorem joinSp_cons_cons_ne (x y : String) (t : List String) :
    joinSp (x :: y :: t) ≠ "" := by
  intro h
  have hl := congrArg String.length h
  rw [joinSp] at hl
  simp only [String.length_append] at hl
  have h1 : (" " : String).length = 1 := rfl
  rw [h1] at hl
  simp at hl

theorem joinSp_eq_empty_iff (parts : List String)
    (h : ∀ s ∈ parts, s ≠ "") : joinSp parts = "" ↔ parts = [] := by
  cases parts with
  | nil => simp [joinSp]
  | cons x rest =>
    cases rest with
    | nil =>
      simp only [joinSp]
      constructor
      · intro hx
        exact absurd hx (h x (List.mem_cons_self _ _))
      · intro hx
        exact absurd hx (by simp)
    | cons y t =>
      constructor
      · intro hx
        exact absurd hx (joinSp_cons_cons_ne x y t)
      · intro hx
        exact absurd hx (by simp)

theorem mem_sortByYearDesc {recs : List HistoryRecord} {r : HistoryRecord} :
    r ∈ sortByYearDesc recs ↔ r ∈ recs :=
  List.mem_insertionSort _

/-- The string `all_descriptions` is empty iff every cleaned per-year description is
empty (the year markers make every retained part nonempty). -/
theorem all_descriptions_eq_empty_iff (clean : String → String)
    (recs : List HistoryRecord) :
    all_descriptions clean recs = "" ↔
      ∀ r ∈ recs, clean r.description = "" := by
  rw [all_descriptions]
  rw [joinSp_eq_empty_iff]
  · rw [List.filterMap_eq_nil_iff]
    constructor
    · intro h r hr
      have := h r (mem_sortByYearDesc.mpr hr)
      by_contra hd
      simp only [if_neg hd] at this
      exact Option.noConfusion this
    · intro h r hr
      have hd := h r (mem_sortByYearDesc.mp hr)
      simp [hd]
  · intro s hs
    rcases List.mem_filterMap.mp hs with ⟨r, _, hr⟩
    by_cases hd : clean r.description = ""
    · simp only [if_pos hd] at hr
      exact Option.noConfusion hr
    · simp only [if_neg hd] at hr
      have hrs : yearTag r ++ clean r.description = s := Option.some_inj.mp hr
      intro hemp
      rw [← hrs] at hemp
      have hle := congrArg String.length hemp
      simp only [String.length_append] at hle
      have hy : 0 < (yearTag r).length := by
        rw [yearTag]
        rw [String.length_append, String.length_append]
        have h1 : ("[" : String).length = 1 := rfl
        omega
      have h0 : ("" : String).length = 0 := rfl
      omega

/-- The string `event_text` is empty iff every event combined cleaned text is
empty. -/
theorem event_text_eq_empty_iff (clean : String → String)
    (recs : List HistoryRecord) :
    event_text clean recs = "" ↔
      ∀ r ∈ recs, ∀ e ∈ r.events, event_item clean e = "" := by
  rw [event_text]
  rw [joinSp_eq_empty_iff]
  · rw [event_items, List.flatten_eq_nil_iff]
    constructor
    · intro h r hr e he
      have hev := h _ (List.mem_map_of_mem _ (mem_sortByYearDesc.mpr hr))
      rw [List.filterMap_eq_nil_iff] at hev
      have := hev e he
      by_contra hne
      simp only [if_neg hne] at this
      exact Option.noConfusion this
    · intro h l hl
      rcases List.mem_map.mp hl with ⟨r, hr, hrl⟩
      rw [← hrl, List.filterMap_eq_nil_iff]
      intro e he
      have := h r (mem_sortByYearDesc.mp hr) e he
      simp [this]
  · intro s hs
    rw [event_items] at hs
    rcases List.mem_flatten.mp hs with ⟨l, hl, hsl⟩
    rcases List.mem_map.mp hl with ⟨r, _, hrl⟩
    rw [← hrl] at hsl
    rcases List.mem_filterMap.mp hsl with ⟨e, _, he⟩
    by_cases hne : event_item clean e = ""
    · simp only [if_pos hne] at he
      exact Option.noConfusion he
    · simp only [if_neg hne] at he
      rw [Option.some_inj.mp he] at hne
      exact hne

/-- When every cleaned description is empty, so is the latest one. -/
theorem latest_description_empty (clean : String → String)
    (recs : List HistoryRecord)
    (h : ∀ r ∈ recs, clean r.description = "") :
    latest_description clean recs = "" := by
  rw [latest_description]
  cases hs : sortByYearDesc recs with
  | nil => rfl
  | cons r t =>
    refine h r (mem_sortByYearDesc.mp ?_)
    rw [hs]
    exact List.mem_cons_self _ _

/-- Every assembled corpus part is a nonempty string. -/
theorem text_corpus_parts_ne_empty (clean : String → String)
    (recs : List HistoryRecord) :
    ∀ s ∈ text_corpus_parts clean recs, s ≠ "" := by
  intro s hs
  rw [text_corpus_parts] at hs
  rcases List.mem_append.mp hs with h | h3
  · rcases List.mem_append.mp h with h1 | h2
    · split_ifs at h1 with hld
      · exact absurd h1 (List.not_mem_nil _)
      · rcases List.mem_cons.mp h1 with he | he
        · rw [he]
          exact hld
        · rw [List.mem_singleton.mp he]
          exact hld
    · split_ifs at h2 with had
      · exact absurd h2 (List.not_mem_nil _)
      · rw [List.mem_singleton.mp h2]
        exact had
  · split_ifs at h3 with het
    · exact absurd h3 (List.not_mem_nil _)
    · rw [List.mem_singleton.mp h3]
      exact het

/-- The corpus is empty iff all three assembled components are. -/
theorem corpus_empty_iff_parts (clean : String → String)
    (recs : List HistoryRecord) :
    joinSp (text_corpus_parts clean recs) = "" ↔
      (latest_description clean recs = "" ∧
        all_descriptions clean recs = "" ∧ event_text clean recs = "") := by
  rw [joinSp_eq_empty_iff _ (text_corpus_parts_ne_empty clean recs)]
  rw [text_corpus_parts]
  constructor
  · intro h
    refine ⟨?_, ?_, ?_⟩ <;> by_contra hc <;> simp [hc] at h
  · intro h
    simp [h.1, h.2.1, h.2.2]

/-- Claim C8: corpus assembly and the empty-corpus invariant: the corpus is
the space-join of the nonempty components `[latest ×2, all-years
descriptions, event text]` in that order; it is empty iff the camp has no
cleaned description text in any year and no cleaned event text in any
year; and every camp always yields a shaped record (none are dropped). -/
theorem c8_corpus_assembly (clean : String → String) (camp : CampInput)
    (recs : List HistoryRecord) (camps : List CampInput)
    (history : String → List HistoryRecord) :
    ((create_shaped_record clean camp recs).text_corpus =
      joinSp (([latest_description clean recs, latest_description clean recs,
        all_descriptions clean recs, event_text clean recs]).filter
          fun s => !(s == ""))) ∧
    ((create_shaped_record clean camp recs).text_corpus = "" ↔
      ((∀ r ∈ recs, clean r.description = "") ∧
        ∀ r ∈ recs, ∀ e ∈ r.events, event_item clean e = "")) ∧
    (shape_all_camps clean camps history).length = camps.length := by
  refine ⟨?_, ?_, by simp [shape_all_camps]⟩
  · show joinSp (text_corpus_parts clean recs) = _
    rw [text_corpus_parts]
    by_cases h1 : latest_description clean recs = "" <;>
      by_cases h2 : all_descriptions clean recs = "" <;>
      by_cases h3 : event_text clean recs = "" <;>
      simp [h1, h2, h3, List.filter_cons]
  · show joinSp (text_corpus_parts clean recs) = "" ↔ _
    rw [corpus_empty_iff_parts, all_descriptions_eq_empty_iff,
      event_text_eq_empty_iff]
    constructor
    · exact fun h => ⟨h.2.1, h.2.2⟩
    · intro h
      exact ⟨latest_description_empty clean recs h.1, h.1, h.2⟩

end BRC

